import Mathlib

/-!
Verification development for the Note_taker application core: the note
persistence and multi-tab consistency protocol, and the AI request
orchestration layer. Each definition below is a shallow embedding of a
function from the TypeScript source; machine integers are modelled with
Nat and Int (with explicit 32-bit wrapping where the source relies on
JavaScript bitwise coercion), strings with Lean String (lengths counted
in characters rather than UTF-16 code units), and fallible code with
Option and Except.
-/

namespace NoteTaker

/-- JavaScript `x || d` on numbers: `x` is falsy exactly when it is 0. -/
def jsOrNat (x d : Nat) : Nat :=
  if x = 0 then d else x

/-- JavaScript `x || d` on an optional string: both a missing field and
the empty string are falsy. -/
def jsOrStr (x : Option String) (d : String) : String :=
  match x with
  | some s => if s = "" then d else s
  | none => d

/-- From src/services/insights.ts: the subject type enumeration. -/
inductive SubjectType where
  | general
  | math
  | chemistry
  | code
  | language
deriving DecidableEq, Repr

/-- From src/services/insights.ts: a term and its explanation. -/
structure Definition where
  term : String
  explanation : String
deriving DecidableEq, Repr

/-- From src/types.ts: the optional `aiMetadata` bundle on a note. -/
structure AIMetadata where
  summary : Option String
  lastAnalyzed : Option Nat
deriving DecidableEq, Repr

/-- From src/services/insights.ts: the structured insight bundle. -/
structure AIInsights where
  summary : String
  definitions : List Definition
  additionalContext : String
  studyQuestions : List String
  generatedAt : Nat
  contentHash : String
deriving DecidableEq, Repr

/-- From src/types.ts: the central Note entity. -/
structure Note where
  id : String
  title : String
  content : String
  updatedAt : Nat
  version : Nat
  tags : List String
  subjectType : SubjectType
  aiMetadata : Option AIMetadata
  aiInsights : Option AIInsights
deriving DecidableEq, Repr

/-- Leading whitespace removal over a character list. -/
def dropLeadingWs : List Char → List Char
  | [] => []
  | c :: cs => if c.isWhitespace then dropLeadingWs cs else c :: cs

/-- Whitespace removal at both ends of a character list. -/
def trimChars (cs : List Char) : List Char :=
  (dropLeadingWs (dropLeadingWs cs).reverse).reverse

/-- JavaScript `String.prototype.trim`: whitespace removed from both
ends. -/
def jsTrim (s : String) : String :=
  String.mk (trimChars s.data)

/-- Splitting a character list on a separator character; the empty list
splits to one empty group, as JavaScript `split` does. -/
def splitOnCharAux (sep : Char) : List Char → List (List Char)
  | [] => [[]]
  | c :: cs =>
      if c = sep then [] :: splitOnCharAux sep cs
      else
        match splitOnCharAux sep cs with
        | [] => [[c]]
        | g :: gs => (c :: g) :: gs

/-- JavaScript `String.prototype.split` with a one-character separator. -/
def jsSplit (sep : Char) (s : String) : List String :=
  (splitOnCharAux sep s.data).map String.mk

/-- From src/App.tsx `extractTitle`: title is the trimmed first line of the
content; truncated to 50 characters plus an ellipsis when longer; the empty
string when the trimmed first line is empty. -/
def extractTitle (content : String) : String :=
  let firstLine := jsTrim ((jsSplit '\n' content).headD "")
  if firstLine ≠ "" then
    if firstLine.length > 50 then firstLine.take 50 ++ "..." else firstLine
  else ""

/-- The title extraction rule as worded by the specification: the trimmed
first line of the content; the empty string if the trimmed first line is
empty; and if the trimmed first line is longer than 50 characters, its first
50 characters followed by an ellipsis marker. Used to compare the source
function against the spec wording. -/
def titleFromSpec (content : String) : String :=
  let t := jsTrim ((jsSplit '\n' content).headD "")
  if t = "" then ""
  else if t.length > 50 then t.take 50 ++ "..."
  else t

/-- Wraps an integer to the JavaScript signed 32-bit range, as the
`| 0` and `&` coercions do. -/
def toInt32 (z : Int) : Int :=
  (z + 2 ^ 31) % 2 ^ 32 - 2 ^ 31

/-- One step of the content hash loop from src/services/insights.ts
`hashContent`: `hash = ((hash << 5) - hash) + char; hash = hash & hash`.
The shift wraps to 32 bits, and the final bitwise and coerces the result
back to a signed 32-bit integer. -/
def hashStep (h : Int) (c : Char) : Int :=
  toInt32 (toInt32 (h * 32) - h + c.toNat)

/-- The accumulated numeric hash over the characters of the content. -/
def hashLoop (content : String) : Int :=
  content.toList.foldl hashStep 0

/-- Hexadecimal rendering of a natural number, lower case, as
JavaScript `Number.prototype.toString(16)` renders nonnegative integers. -/
def natToHex (n : Nat) : String :=
  String.mk (Nat.toDigits 16 n)

/-- From src/services/insights.ts `hashContent`: the 32-bit rolling hash of
the content rendered in hexadecimal (JavaScript renders a negative integer
as a minus sign followed by the hexadecimal magnitude). -/
def hashContent (content : String) : String :=
  let h := hashLoop content
  if h < 0 then "-" ++ natToHex h.natAbs else natToHex h.toNat

/-- The partial object recovered from the JSON in an insights response;
each field may be missing. A parse failure is modelled as `none` for the
whole object, matching the `parsed = {}` fallback in the catch branch of
src/services/insights.ts `generateInsights`. -/
structure ParsedInsights where
  summary : Option String
  definitions : Option (List Definition)
  additionalContext : Option String
  studyQuestions : Option (List String)
deriving DecidableEq, Repr

/-- From src/services/insights.ts `generateInsights`: the insights object
assembled from the parse outcome, with per-field defaults, a fresh
timestamp and the hash of the full input content. `parsed.summary || ...`
and `parsed.additionalContext || ...` treat an empty string as missing;
the array fields fall back to the empty list unless the parsed field is
an array. -/
def buildInsights (parsed : Option ParsedInsights) (content : String)
    (now : Nat) : AIInsights :=
  let p := parsed.getD ⟨none, none, none, none⟩
  { summary := jsOrStr p.summary "No summary available."
    definitions := p.definitions.getD []
    additionalContext := jsOrStr p.additionalContext ""
    studyQuestions := p.studyQuestions.getD []
    generatedAt := now
    contentHash := hashContent content }

/-- From src/services/llm.ts `suggestTags`: the response is split on commas,
each piece trimmed, pieces that are empty or 30 or more characters long are
dropped, and at most the first five pieces are kept. -/
def parseTags (response : String) : List String :=
  (((jsSplit ',' response).map jsTrim).filter
      (fun tag => tag.length > 0 && tag.length < 30)).take 5

/-- From src/utils/sync.ts: the cross-tab wire message (the `type` field is
always the string NOTE_UPDATED and is checked before the handler runs, so it
is omitted from the model). -/
structure SyncMessage where
  noteId : String
  version : Nat
  timestamp : Nat
deriving DecidableEq, Repr

/-- From src/App.tsx: the transient conflict state for the active note. -/
structure ConflictState where
  hasConflict : Bool
  externalVersion : Nat
deriving DecidableEq, Repr

/-- From src/App.tsx, the onMessage subscription effect: when a broadcast
arrives for the currently active note id and the local copy of that note is
strictly behind the broadcast version, the conflict flag is set to the
external version; otherwise the conflict state is left untouched. -/
def onSyncMessage (activeNoteId : Option String) (notes : List Note)
    (conflict : Option ConflictState) (msg : SyncMessage) :
    Option ConflictState :=
  if some msg.noteId = activeNoteId then
    match notes.find? (fun n => n.id = msg.noteId) with
    | some localNote =>
        if msg.version > localNote.version then
          some { hasConflict := true, externalVersion := msg.version }
        else conflict
    | none => conflict
  else conflict

/-- From src/db/idb.ts: a persisted note record carries the byte size of its
content alongside the note fields. -/
structure NoteRecord extends Note where
  size : Nat
deriving DecidableEq, Repr

/-- The IndexedDB object store of note records, keyed by id. -/
abbrev Store := List NoteRecord

/-- Key lookup in the store. -/
def storeGet (store : Store) (id : String) : Option NoteRecord :=
  store.find? (fun r => r.id = id)

/-- IndexedDB `put`: upsert by id. -/
def storePut (store : Store) (r : NoteRecord) : Store :=
  r :: store.filter (fun x => x.id ≠ r.id)

/-- From src/db/idb.ts `calculateSize`: the byte size of the content (a Blob
of a string measures its UTF-8 encoding). -/
def calculateSize (content : String) : Nat :=
  content.utf8ByteSize

/-- From src/db/operations.ts `saveNote`: the persisted record carries
`(note.version || 0) + 1` — the version is incremented on every save —
together with the computed content size. -/
def saveNoteM (store : Store) (note : Note) : Store :=
  let noteWithVersion : Note := { note with version := jsOrNat note.version 0 + 1 }
  storePut store { toNote := noteWithVersion, size := calculateSize note.content }

/-- The record src/db/operations.ts `saveNotes` builds for one note: the
note with `note.version || 1` — no increment — plus its content size. -/
def mkRecord (n : Note) : NoteRecord :=
  { toNote := { n with version := jsOrNat n.version 1 },
    size := calculateSize n.content }

/-- From src/db/operations.ts `saveNotes` (bulk save used by import): each
note is persisted with `note.version || 1` — no increment — and its size. -/
def saveNotesM (store : Store) (notes : List Note) : Store :=
  notes.foldl (fun st n => storePut st (mkRecord n)) store

/-- From src/db/operations.ts `clearAllNotes`. -/
def clearAllNotesM : Store := []

/-- The in-memory registry state of src/App.tsx that the creation flow
touches: the note list (most recent first), the active note id, and the
persisted store. -/
structure RegistryState where
  notes : List Note
  activeNoteId : Option String
  store : Store
deriving DecidableEq, Repr

/-- From src/App.tsx `handleCreateNote`: a fresh note with empty title and
content, version 1, no tags and the general subject is saved to the store
at once (awaited, not debounced), then inserted at the front of the note
list and made active. -/
def handleCreateNoteM (st : RegistryState) (id : String) (now : Nat) :
    RegistryState :=
  let newNote : Note :=
    { id := id, title := "", content := "", updatedAt := now, version := 1,
      tags := [], subjectType := .general, aiMetadata := none,
      aiInsights := none }
  { notes := newNote :: st.notes
    activeNoteId := some id
    store := saveNoteM st.store newNote }

/-- Per-note lifecycle state: the in-memory note, its persisted record, the
versions successfully written to the store (most recent first) and the
versions broadcast to other tabs (most recent first). -/
structure NoteSync where
  note : Note
  store : Option NoteRecord
  written : List Nat
  broadcasts : List Nat
deriving DecidableEq, Repr

/-- The mutations src/App.tsx applies to the active note: a content edit
(persistence deferred to the debounce timer), the debounce timer firing, a
rename, a subject change, and the two full-note update callers that leave
the version untouched — a tag add (src/components/Editor.tsx
`handleAddTag`) and an AI summary application (src/components/AISidebar.tsx
`handleGenerateSummary`). -/
inductive MutOp where
  | editContent (now : Nat) (c : String)
  | debounceFlush
  | rename (now : Nat) (t : String)
  | subjectChange (now : Nat) (s : SubjectType)
  | addTag (t : String)
  | applySummary (s : String) (now : Nat)
deriving DecidableEq, Repr

/-- A successful `saveNote` of the current in-memory note followed by the
broadcast: the record is written with the memory version plus one (the
increment inside saveNote), while `postMessage` broadcasts the memory
version itself. -/
def saveCurrent (s : NoteSync) : NoteSync :=
  let w := jsOrNat s.note.version 0 + 1
  { s with
    store := some { toNote := { s.note with version := w },
                    size := calculateSize s.note.content }
    written := w :: s.written
    broadcasts := s.note.version :: s.broadcasts }

/-- One mutation step, following src/App.tsx: `handleUpdateNote` bumps the
version in memory only; the debounce timer persists the current note;
`handleRenameNote` and `handleSubjectChange` bump the version and persist
at once (the subject change is a no-op when the subject is unchanged);
the tag add and summary application go through `handleUpdateNoteFull`
with an unchanged version and persist at once. -/
def stepMut (s : NoteSync) : MutOp → NoteSync
  | .editContent now c =>
      { s with note := { s.note with content := c,
                                     title := extractTitle c,
                                     updatedAt := now,
                                     version := jsOrNat s.note.version 0 + 1 } }
  | .debounceFlush => saveCurrent s
  | .rename now t =>
      saveCurrent
        { s with note := { s.note with title := t,
                                       updatedAt := now,
                                       version := jsOrNat s.note.version 0 + 1 } }
  | .subjectChange now sub =>
      if s.note.subjectType ≠ sub then
        saveCurrent
          { s with note := { s.note with subjectType := sub,
                                         updatedAt := now,
                                         version := jsOrNat s.note.version 0 + 1 } }
      else s
  | .addTag t =>
      saveCurrent { s with note := { s.note with tags := s.note.tags ++ [t] } }
  | .applySummary sum now =>
      saveCurrent
        { s with note := { s.note with aiMetadata := some ⟨some sum, some now⟩ } }

/-- A run of mutation steps. -/
def runMut (s : NoteSync) (ops : List MutOp) : NoteSync :=
  ops.foldl stepMut s

/-- The persistence invariant of a note lifecycle state: the store holds the
most recently written version, every written version is bounded by the
current memory version plus one, and the most recent written version bounds
all earlier ones. -/
def noteSyncInv (s : NoteSync) : Prop :=
  s.store.map (fun r => r.version) = s.written.head? ∧
  (∀ w ∈ s.written, w ≤ s.note.version + 1) ∧
  (match s.written with
   | [] => True
   | h :: t => ∀ w ∈ t, w ≤ h)

/-- The shared constant value: both src/components/Editor.tsx
(GrammarChecker) and src/components/AISidebar.tsx (InsightsPanel) declare
their own COOLDOWN_MS equal to 3000. -/
def COOLDOWN_MS : Nat := 3000

/-- From src/components/AISidebar.tsx (InsightsPanel): RETRY_DELAY_MS. -/
def RETRY_DELAY_MS : Nat := 3000

/-- The five AI operation kinds the application issues. -/
inductive AIOp where
  | summary
  | tags
  | continuation
  | grammar
  | insights
deriving DecidableEq, Repr

/-- The cooldown bookkeeping found in the components: the grammar checker
keeps its own last-request time (none until the first check, since its gate
is a countdown that starts at zero), and the insights panel keeps its own
`lastRequestTimeRef` initialised to 0. No other component keeps any
cooldown state. -/
structure AIGates where
  grammarLast : Option Nat
  insightsLast : Nat
deriving DecidableEq, Repr

/-- A manual AI request at time `t`: whether the cooldown gate lets it
proceed, and the updated gate state. The grammar checker blocks while its
own 3000 ms countdown runs (src/components/Editor.tsx `checkGrammar`); the
insights panel blocks while `Date.now() - lastRequestTimeRef < COOLDOWN_MS`
(src/components/AISidebar.tsx `generate`, non-retry path); summary, tags
and continuation requests have no cooldown check at all (AISidebar
`handleGenerateSummary`, `handleSuggestTags`; Editor
`generateContinuation`). -/
def attemptAI (g : AIGates) (op : AIOp) (t : Nat) : Bool × AIGates :=
  match op with
  | .grammar =>
      match g.grammarLast with
      | some l =>
          if t - l < COOLDOWN_MS then (false, g)
          else (true, { g with grammarLast := some t })
      | none => (true, { g with grammarLast := some t })
  | .insights =>
      if t - g.insightsLast < COOLDOWN_MS then (false, g)
      else (true, { g with insightsLast := t })
  | _ => (true, g)

/-- An endpoint response as the client observes it: a success body, a
rate-limit status with an optional message, or another error status. -/
inductive EndpointResp where
  | ok (body : String)
  | rateLimited (msg : Option String)
  | httpError (status : Nat) (msg : Option String)
deriving DecidableEq, Repr

/-- From src/services/llm.ts `generateText`: a 429 response throws the
server message, or a fixed wait hint when the message is missing; any other
failing status throws an HTTP error message; a success returns the body.
There is no retry of any kind in this function or its callers (summary,
tags, continuation). -/
def generateTextM : EndpointResp → Except String String
  | .ok body => .ok body
  | .rateLimited m => .error (jsOrStr m "Rate limited. Please wait a moment.")
  | .httpError status m =>
      .error (jsOrStr m ("HTTP error! status: " ++ toString status))

/-- A single summary, tag, continuation or grammar request: exactly one
endpoint request is issued, and a failure is surfaced to the caller as an
error message. Returns the number of endpoint requests issued and the
surfaced error, if any. -/
def runSingleShot (resp : EndpointResp) : Nat × Option String :=
  match generateTextM resp with
  | .ok _ => (1, none)
  | .error e => (1, some e)

/-- The outcome the insights generation flow can reach. -/
inductive GenOutcome where
  | ok
  | rateLimited
  | otherError (msg : String)
deriving DecidableEq, Repr

/-- What the insights flow ends in once the simulated responses run out or
a non-rate-limited response arrives. -/
inductive InsightsFinal where
  | applied
  | surfaced (msg : String)
  | awaitingRetry
deriving DecidableEq, Repr

/-- From src/components/AISidebar.tsx (InsightsPanel) `generate`: the
request loop, fed the sequence of endpoint outcomes each attempt observes.
A rate-limited outcome makes the catch branch schedule `generate(true)`
after RETRY_DELAY_MS — the branch never consults the `isRetry` flag, so
this happens on every rate-limited outcome, not only the first. Returns
the number of retries scheduled, the list of scheduled delays, and the
final outcome. -/
def runInsightsGenerate : List GenOutcome → Bool → Nat × List Nat × InsightsFinal
  | [], _ => (0, [], .awaitingRetry)
  | GenOutcome.ok :: _, _ => (0, [], .applied)
  | GenOutcome.otherError m :: _, _ => (0, [], .surfaced m)
  | GenOutcome.rateLimited :: rest, _ =>
      let r := runInsightsGenerate rest true
      (r.1 + 1, RETRY_DELAY_MS :: r.2.1, r.2.2)

/-- A JSON value, the shape of data crossing JSON.parse / JSON.stringify.
Numeric fields of the application are integer timestamps and counters, so
numbers are modelled as integers. -/
inductive Json where
  | str (s : String)
  | num (n : Int)
  | bool (b : Bool)
  | null
  | arr (elems : List Json)
  | obj (fields : List (String × Json))

/-- Field access on a JSON object (a missing key reads as undefined). -/
def jsonField (fields : List (String × Json)) (key : String) : Option Json :=
  fields.lookup key

/-- A string-typed JSON value. -/
def asString : Json → Option String
  | .str s => some s
  | _ => none

/-- A number-typed JSON value, read as a natural; the timestamps and
versions of the application are nonnegative. -/
def asNat : Json → Option Nat
  | .num n => some n.toNat
  | _ => none

/-- Structural reading of a list of JSON values as strings; any non-string
element fails the whole read. -/
def decodeStrings : List Json → Option (List String)
  | [] => some []
  | j :: js =>
      match asString j, decodeStrings js with
      | some s, some ss => some (s :: ss)
      | _, _ => none

/-- An array of strings. -/
def asStringList : Json → Option (List String)
  | .arr l => decodeStrings l
  | _ => none

/-- Rendering of the subject type union as its JSON string. -/
def subjectTypeToString : SubjectType → String
  | .general => "general"
  | .math => "math"
  | .chemistry => "chemistry"
  | .code => "code"
  | .language => "language"

/-- Reading a subject type back from its JSON string. -/
def subjectTypeOfString (s : String) : Option SubjectType :=
  if s = "general" then some .general
  else if s = "math" then some .math
  else if s = "chemistry" then some .chemistry
  else if s = "code" then some .code
  else if s = "language" then some .language
  else none

/-- JSON encoding of a definition pair. -/
def definitionToJson (d : Definition) : Json :=
  .obj [("term", .str d.term), ("explanation", .str d.explanation)]

/-- JSON encoding of an insights bundle. -/
def insightsToJson (i : AIInsights) : Json :=
  .obj [("summary", .str i.summary),
        ("definitions", .arr (i.definitions.map definitionToJson)),
        ("additionalContext", .str i.additionalContext),
        ("studyQuestions", .arr (i.studyQuestions.map Json.str)),
        ("generatedAt", .num i.generatedAt),
        ("contentHash", .str i.contentHash)]

/-- JSON encoding of the aiMetadata bundle; JSON.stringify drops fields
that are undefined, so absent optional fields produce no key. -/
def metaToJson (m : AIMetadata) : Json :=
  .obj ((match m.summary with
         | some s => [("summary", Json.str s)]
         | none => []) ++
        (match m.lastAnalyzed with
         | some t => [("lastAnalyzed", Json.num t)]
         | none => []))

/-- JSON encoding of a note, keys in the declaration order of
src/types.ts; absent optional fields produce no key. -/
def noteToJson (n : Note) : Json :=
  .obj ([("id", .str n.id), ("title", .str n.title),
         ("content", .str n.content), ("updatedAt", .num n.updatedAt),
         ("version", .num n.version),
         ("tags", .arr (n.tags.map Json.str)),
         ("subjectType", .str (subjectTypeToString n.subjectType))] ++
        (match n.aiMetadata with
         | some m => [("aiMetadata", metaToJson m)]
         | none => []) ++
        (match n.aiInsights with
         | some i => [("aiInsights", insightsToJson i)]
         | none => []))

/-- From src/utils/export.ts `exportNotes`: the export file holds the
version marker 1.0, the export timestamp string, and the full note list
unchanged. -/
def exportNotesData (exportedAt : String) (notes : List Note) : Json :=
  .obj [("version", .str "1.0"), ("exportedAt", .str exportedAt),
        ("notes", .arr (notes.map noteToJson))]

/-- Reading a definition pair back from JSON. -/
def decodeDefinition : Json → Option Definition
  | .obj fs => do
      let t ← (jsonField fs "term").bind asString
      let e ← (jsonField fs "explanation").bind asString
      pure ⟨t, e⟩
  | _ => none

/-- Structural reading of a list of JSON values as definition pairs. -/
def decodeDefinitions : List Json → Option (List Definition)
  | [] => some []
  | j :: js =>
      match decodeDefinition j, decodeDefinitions js with
      | some d, some ds => some (d :: ds)
      | _, _ => none

/-- Reading an insights bundle back from JSON. -/
def decodeInsights : Json → Option AIInsights
  | .obj fs => do
      let s ← (jsonField fs "summary").bind asString
      let ds ← (jsonField fs "definitions").bind
        (fun j => match j with
                  | .arr l => decodeDefinitions l
                  | _ => none)
      let ac ← (jsonField fs "additionalContext").bind asString
      let sq ← (jsonField fs "studyQuestions").bind asStringList
      let g ← (jsonField fs "generatedAt").bind asNat
      let ch ← (jsonField fs "contentHash").bind asString
      pure ⟨s, ds, ac, sq, g, ch⟩
  | _ => none

/-- Reading the aiMetadata bundle back from JSON; both fields optional. -/
def decodeMeta : Json → Option AIMetadata
  | .obj fs =>
      some ⟨(jsonField fs "summary").bind asString,
            (jsonField fs "lastAnalyzed").bind asNat⟩
  | _ => none

/-- The structural reading of a parsed JSON object as a Note, mirroring the
untyped cast the import code performs: the four validated fields must be
present with the right type, while the remaining fields read as their
JavaScript undefined-coalescing defaults (version missing reads as 0,
which every later `note.version || d` treats exactly as undefined; missing
tags read as the empty list; a missing or unknown subject reads as
general; missing optional bundles read as absent). -/
def decodeNote : Json → Option Note
  | .obj fs => do
      let id ← (jsonField fs "id").bind asString
      let title ← (jsonField fs "title").bind asString
      let content ← (jsonField fs "content").bind asString
      let updatedAt ← (jsonField fs "updatedAt").bind asNat
      pure { id := id, title := title, content := content,
             updatedAt := updatedAt,
             version := ((jsonField fs "version").bind asNat).getD 0,
             tags := ((jsonField fs "tags").bind asStringList).getD [],
             subjectType := (((jsonField fs "subjectType").bind asString).bind
               subjectTypeOfString).getD .general,
             aiMetadata := (jsonField fs "aiMetadata").bind decodeMeta,
             aiInsights := (jsonField fs "aiInsights").bind decodeInsights }
  | _ => none

/-- Whether the field is present with string type, as
`typeof x.key === "string"` observes. -/
def hasStringField (fields : List (String × Json)) (key : String) : Bool :=
  match fields.lookup key with
  | some (.str _) => true
  | _ => false

/-- Whether the field is present with number type. -/
def hasNumberField (fields : List (String × Json)) (key : String) : Bool :=
  match fields.lookup key with
  | some (.num _) => true
  | _ => false

/-- From src/utils/import.ts `validateImportData`, per-note part: a note
must be an object with string id, string title, string content and numeric
updatedAt. -/
def isValidNoteShape : Json → Bool
  | .obj fs =>
      hasStringField fs "id" && hasStringField fs "title" &&
      hasStringField fs "content" && hasNumberField fs "updatedAt"
  | _ => false

/-- From src/utils/import.ts `validateImportData`: the file must be an
object with string version, string exportedAt and an array of notes, every
one of which passes the per-note shape check. -/
def validateImportData : Json → Bool
  | .obj fs =>
      hasStringField fs "version" && hasStringField fs "exportedAt" &&
      (match fs.lookup "notes" with
       | some (.arr notesArr) => notesArr.all isValidNoteShape
       | _ => false)
  | _ => false

/-- The notes array of a parsed import file, read structurally (the
TypeScript code uses the parsed objects directly after validation). -/
def getImportedNotes (j : Json) : List Note :=
  match j with
  | .obj fs =>
      match fs.lookup "notes" with
      | some (.arr l) => l.filterMap decodeNote
      | _ => []
  | _ => []

/-- From src/utils/import.ts. -/
inductive ImportMode where
  | merge
  | replace
deriving DecidableEq, Repr

/-- The result record of importNotes; on failure only the success flag and
message are meaningful and the counts read as zero. -/
structure ImportResultM where
  success : Bool
  message : String
  importedCount : Nat
  newCount : Nat
  updatedCount : Nat
deriving DecidableEq, Repr

/-- JavaScript `Map.set` over a note list keyed by id: an existing key is
overwritten in place, a new key is appended. -/
def mapUpsert (notes : List Note) (n : Note) : List Note :=
  if notes.any (fun x => x.id = n.id) then
    notes.map (fun x => if x.id = n.id then n else x)
  else notes ++ [n]

/-- The merge walk of src/utils/import.ts: each imported note counts as an
update when its id is already in the evolving map and as new otherwise,
and is then set into the map. Returns the new count, the updated count and
the merged list. -/
def mergeCounts (current imported : List Note) : Nat × Nat × List Note :=
  imported.foldl
    (fun acc n =>
      if acc.2.2.any (fun x => x.id = n.id) then
        (acc.1, acc.2.1 + 1, mapUpsert acc.2.2 n)
      else (acc.1 + 1, acc.2.1, mapUpsert acc.2.2 n))
    (0, 0, current)

/-- The merge result list (map values in insertion order). -/
def mergeNotes (current imported : List Note) : List Note :=
  imported.foldl mapUpsert current

/-- Sorting by updatedAt descending, as `sort((a, b) => b.updatedAt -
a.updatedAt)` orders a list. -/
def sortByUpdatedAtDesc (notes : List Note) : List Note :=
  notes.mergeSort (fun a b => decide (b.updatedAt ≤ a.updatedAt))

/-- From src/utils/import.ts `importNotes` (after JSON.parse): a file that
fails validation rejects the whole import with the fixed message; a valid
file yields the counts and message of the chosen mode. -/
def importNotesM (j : Json) (currentNotes : List Note) (mode : ImportMode) :
    ImportResultM :=
  if validateImportData j then
    let importedNotes := getImportedNotes j
    match mode with
    | .replace =>
        { success := true
          message := "Imported " ++ toString importedNotes.length ++
            " notes (replaced all)"
          importedCount := importedNotes.length
          newCount := importedNotes.length
          updatedCount := 0 }
    | .merge =>
        let c := mergeCounts currentNotes importedNotes
        { success := true
          message := "Imported " ++ toString (c.1 + c.2.1) ++ " notes (" ++
            toString c.1 ++ " new, " ++ toString c.2.1 ++ " updated)"
          importedCount := c.1 + c.2.1
          newCount := c.1
          updatedCount := c.2.1 }
  else
    { success := false
      message := "Invalid file format. Expected valid JSON with notes array."
      importedCount := 0, newCount := 0, updatedCount := 0 }

/-- What src/App.tsx `handleImport` leaves behind: the in-memory note
list, the store, and the alert text shown. -/
structure ImportAppResult where
  notes : List Note
  store : Store
  alert : String
deriving DecidableEq, Repr

/-- From src/App.tsx `handleImport`: when importNotes succeeds the imported
notes are taken from the re-parsed file (replace mode discards the current
list, merge mode folds them into a map over the current list), sorted by
updatedAt descending, persisted via clearAllNotes plus saveNotes (replace)
or saveNotes over the existing store (merge), and installed in memory; on
failure nothing changes and the failure message is alerted. -/
def handleImportM (j : Json) (notes : List Note) (store : Store)
    (mode : ImportMode) : ImportAppResult :=
  let result := importNotesM j notes mode
  if result.success then
    let importedNotes := getImportedNotes j
    let newNotes :=
      match mode with
      | .replace => importedNotes
      | .merge => mergeNotes notes importedNotes
    let sorted := sortByUpdatedAtDesc newNotes
    let baseStore :=
      match mode with
      | .replace => clearAllNotesM
      | .merge => store
    { notes := sorted, store := saveNotesM baseStore sorted,
      alert := result.message }
  else
    { notes := notes, store := store,
      alert := "Import failed: " ++ result.message }

/-! ## Basic lemmas -/

theorem jsOrNat_zero (v : Nat) : jsOrNat v 0 = v := by
  unfold jsOrNat
  split <;> omega

/-! ## Claim theorems -/

/-- C4: for every content string, the recomputed title on a content edit
equals the trimmed first line of the content, the empty string if the
trimmed first line is empty, and the first 50 characters followed by an
ellipsis marker if the trimmed first line is longer than 50 characters. -/
theorem title_extraction_matches_spec (content : String) :
    extractTitle content = titleFromSpec content ∧
    ∀ (s : NoteSync) (now : Nat),
      (stepMut s (MutOp.editContent now content)).note.title =
        titleFromSpec content := by
  have h : extractTitle content = titleFromSpec content := by
    unfold extractTitle titleFromSpec
    by_cases h : jsTrim ((jsSplit '\n' content).headD "") = "" <;> simp [h]
  exact ⟨h, fun s now => h⟩

/-- C7: when JSON extraction and parsing of the insights response fails
(the catch branch that resets the parsed object to empty), generateInsights
returns, without any exception path, an insights object whose summary is
the fixed fallback text, whose definitions, additionalContext and
studyQuestions are empty, whose generatedAt is the fresh timestamp, and
whose contentHash is the hash of the full input content. -/
theorem insights_parse_failure_defaults (content : String) (now : Nat) :
    buildInsights none content now =
      { summary := "No summary available.", definitions := [],
        additionalContext := "", studyQuestions := [],
        generatedAt := now, contentHash := hashContent content } := rfl

/-- C10: for every endpoint response text, suggestTags returns at most five
tags, and every returned tag is a trimmed comma-split piece of the response
that is non-empty and shorter than 30 characters. -/
theorem suggest_tags_shape (response : String) :
    (parseTags response).length ≤ 5 ∧
    ∀ t ∈ parseTags response,
      0 < t.length ∧ t.length < 30 ∧
      ∃ p ∈ jsSplit ',' response, t = jsTrim p := by
  constructor
  · unfold parseTags
    rw [List.length_take]
    exact Nat.min_le_left _ _
  · intro t ht
    have ht2 : t ∈ (((jsSplit ',' response).map jsTrim).filter
        (fun tag => tag.length > 0 && tag.length < 30)) :=
      List.take_subset _ _ ht
    rw [List.mem_filter] at ht2
    obtain ⟨hmem, hp⟩ := ht2
    rw [Bool.and_eq_true, decide_eq_true_eq, decide_eq_true_eq] at hp
    obtain ⟨p, hpmem, hpt⟩ := List.mem_map.mp hmem
    exact ⟨hp.1, hp.2, p, hpmem, hpt.symm⟩

/-- C3: when a broadcast arrives whose noteId equals the currently active
note id and the local copy of that note holds version V, a conflict flag
carrying the broadcast version is raised exactly when the broadcast
version exceeds V; for a broadcast version at most V (own echoes, stale or
duplicate messages included) the conflict state is left exactly as it was,
so no conflict is flagged. -/
theorem conflict_flag_iff (activeNoteId : Option String) (notes : List Note)
    (conflict : Option ConflictState) (msg : SyncMessage) (localNote : Note)
    (hact : activeNoteId = some msg.noteId)
    (hfind : notes.find? (fun n => n.id = msg.noteId) = some localNote) :
    (localNote.version < msg.version →
       onSyncMessage activeNoteId notes conflict msg =
         some { hasConflict := true, externalVersion := msg.version }) ∧
    (msg.version ≤ localNote.version →
       onSyncMessage activeNoteId notes conflict msg = conflict) := by
  subst hact
  constructor
  · intro h
    simp [onSyncMessage, hfind, h]
  · intro h
    simp [onSyncMessage, hfind, Nat.not_lt.mpr h]

/-- C3 witness: with an active note at version 1, a broadcast for it at
version 2 raises the conflict flag carrying 2, while a broadcast at
version 1 leaves the empty conflict state unchanged. -/
theorem conflict_flag_iff_witness :
    onSyncMessage (some "a")
        [{ id := "a", title := "", content := "", updatedAt := 0, version := 1,
           tags := [], subjectType := .general, aiMetadata := none,
           aiInsights := none }] none ⟨"a", 2, 7⟩ =
      some { hasConflict := true, externalVersion := 2 } ∧
    onSyncMessage (some "a")
        [{ id := "a", title := "", content := "", updatedAt := 0, version := 1,
           tags := [], subjectType := .general, aiMetadata := none,
           aiInsights := none }] none ⟨"a", 1, 7⟩ = none := by
  constructor
  · exact (conflict_flag_iff (some "a") _ none ⟨"a", 2, 7⟩
      { id := "a", title := "", content := "", updatedAt := 0, version := 1,
        tags := [], subjectType := .general, aiMetadata := none,
        aiInsights := none } rfl (by decide)).1 (by decide)
  · exact (conflict_flag_iff (some "a") _ none ⟨"a", 1, 7⟩
      { id := "a", title := "", content := "", updatedAt := 0, version := 1,
        tags := [], subjectType := .general, aiMetadata := none,
        aiInsights := none } rfl (by decide)).2 (by decide)

/-- C2 counterexample: creating a note in an empty registry persists a
record whose version is 2, not 1 — saveNote increments the version of
every note it writes, including the freshly created one. -/
theorem create_persists_version_two_counterexample :
    ((storeGet (handleCreateNoteM ⟨[], none, []⟩ "n1" 0).store "n1").map
      (fun r => r.version) = some 2) ∧ (2 : Nat) ≠ 1 := by decide

/-- C2 amended: after create, the in-memory note has version 1, empty title
and content, no tags and the general subject; it sits at the front of the
note list and becomes active; the store write happens within the creation
step itself (not debounced); but the record persisted by that write carries
version 2, since saveNote increments the version of every note it saves. -/
theorem create_note_defaults (st : RegistryState) (id : String) (now : Nat) :
    (handleCreateNoteM st id now).notes =
      { id := id, title := "", content := "", updatedAt := now, version := 1,
        tags := [], subjectType := .general, aiMetadata := none,
        aiInsights := none } :: st.notes ∧
    (handleCreateNoteM st id now).activeNoteId = some id ∧
    storeGet (handleCreateNoteM st id now).store id =
      some { toNote := { id := id, title := "", content := "",
                         updatedAt := now, version := 2, tags := [],
                         subjectType := .general, aiMetadata := none,
                         aiInsights := none },
             size := 0 } := by
  refine ⟨rfl, rfl, ?_⟩
  simp only [handleCreateNoteM, saveNoteM, storePut, storeGet, jsOrNat,
    calculateSize, List.find?]
  simp [show "".utf8ByteSize = 0 from rfl]

theorem saveCurrent_note (s : NoteSync) : (saveCurrent s).note = s.note := rfl

theorem noteSyncInv_mem (s : NoteSync) (n : Note) (h : noteSyncInv s)
    (hv : s.note.version ≤ n.version) : noteSyncInv { s with note := n } := by
  obtain ⟨h1, h2, h3⟩ := h
  refine ⟨h1, ?_, h3⟩
  intro w hw
  have hb := h2 w hw
  show w ≤ n.version + 1
  omega

theorem noteSyncInv_saveCurrent (s : NoteSync) (h : noteSyncInv s) :
    noteSyncInv (saveCurrent s) := by
  obtain ⟨h1, h2, h3⟩ := h
  refine ⟨rfl, ?_, ?_⟩
  · intro w hw
    simp only [saveCurrent, jsOrNat_zero, List.mem_cons] at hw ⊢
    rcases hw with rfl | hw
    · exact le_refl _
    · exact h2 w hw
  · show ∀ w ∈ s.written, w ≤ jsOrNat s.note.version 0 + 1
    intro w hw
    rw [jsOrNat_zero]
    exact h2 w hw

theorem stepMut_version_mono (s : NoteSync) (op : MutOp) :
    s.note.version ≤ (stepMut s op).note.version := by
  cases op with
  | editContent now c => simp [stepMut, jsOrNat_zero]
  | debounceFlush => exact le_refl _
  | rename now t => simp [stepMut, saveCurrent_note, jsOrNat_zero]
  | subjectChange now sub =>
      by_cases hs : s.note.subjectType ≠ sub
      · simp [stepMut, if_pos hs, saveCurrent_note, jsOrNat_zero]
      · simp [stepMut, if_neg hs]
  | addTag t => exact le_refl _
  | applySummary sum now => exact le_refl _

theorem noteSyncInv_step (s : NoteSync) (op : MutOp) (h : noteSyncInv s) :
    noteSyncInv (stepMut s op) := by
  cases op with
  | editContent now c =>
      exact noteSyncInv_mem s _ h (by simp [jsOrNat_zero])
  | debounceFlush => exact noteSyncInv_saveCurrent s h
  | rename now t =>
      exact noteSyncInv_saveCurrent _
        (noteSyncInv_mem s _ h (by simp [jsOrNat_zero]))
  | subjectChange now sub =>
      by_cases hs : s.note.subjectType ≠ sub
      · simp only [stepMut, if_pos hs]
        exact noteSyncInv_saveCurrent _
          (noteSyncInv_mem s _ h (by simp [jsOrNat_zero]))
      · simp only [stepMut, if_neg hs]
        exact h
  | addTag t =>
      exact noteSyncInv_saveCurrent _ (noteSyncInv_mem s _ h (le_refl _))
  | applySummary sum now =>
      exact noteSyncInv_saveCurrent _ (noteSyncInv_mem s _ h (le_refl _))

theorem noteSyncInv_run (s : NoteSync) (ops : List MutOp)
    (h : noteSyncInv s) : noteSyncInv (runMut s ops) := by
  induction ops generalizing s with
  | nil => exact h
  | cons op ops ih => exact ih (stepMut s op) (noteSyncInv_step s op h)

/-- C1 amended: the in-memory version never decreases under any mutation
and strictly increases on content edits, renames and effective subject
changes; full-note updates persist the caller-supplied version, and the
two full-update callers (tag edits and AI summary application) supply an
unchanged version, so the in-memory version can stay constant across such
mutations; along any run from a state satisfying the persistence
invariant, the version persisted in the store always equals the most
recently written version, which bounds every version ever written. -/
theorem note_version_lifecycle (s : NoteSync) (ops : List MutOp)
    (hinv : noteSyncInv s) :
    (∀ op, s.note.version ≤ (stepMut s op).note.version) ∧
    (∀ now c,
      s.note.version < (stepMut s (MutOp.editContent now c)).note.version) ∧
    (∀ now t,
      s.note.version < (stepMut s (MutOp.rename now t)).note.version) ∧
    (∀ now sub, s.note.subjectType ≠ sub →
      s.note.version < (stepMut s (MutOp.subjectChange now sub)).note.version) ∧
    noteSyncInv (runMut s ops) ∧
    ((runMut s ops).store.map (fun r => r.version) =
      (runMut s ops).written.head?) ∧
    (∀ v, (runMut s ops).written.head? = some v →
      ∀ w ∈ (runMut s ops).written, w ≤ v) := by
  obtain ⟨r1, r2, r3⟩ := noteSyncInv_run s ops hinv
  refine ⟨stepMut_version_mono s, ?_, ?_, ?_, noteSyncInv_run s ops hinv,
    r1, ?_⟩
  · intro now c
    simp [stepMut, jsOrNat_zero]
  · intro now t
    simp [stepMut, saveCurrent_note, jsOrNat_zero]
  · intro now sub hs
    simp [stepMut, if_pos hs, saveCurrent_note, jsOrNat_zero]
  · intro v hv w hw
    cases hwr : (runMut s ops).written with
    | nil =>
        rw [hwr] at hv
        exact absurd hv (by simp)
    | cons hd tl =>
        rw [hwr] at hv hw r3
        have hhd : hd = v := by simpa using hv
        rcases List.mem_cons.mp hw with rfl | hw2
        · omega
        · exact hhd ▸ r3 w hw2

/-- C1 counterexample: a full-note update — the tag add path through
handleUpdateNoteFull — leaves the in-memory version of the note unchanged
at 1, so the version is not strictly increasing across every mutation
in a sequence. -/
theorem full_update_version_constant_counterexample :
    (runMut ⟨{ id := "a", title := "", content := "", updatedAt := 0,
               version := 1, tags := [], subjectType := .general,
               aiMetadata := none, aiInsights := none }, none, [], []⟩
        [MutOp.addTag "x"]).note.version = 1 ∧
    ({ id := "a", title := "", content := "", updatedAt := 0, version := 1,
       tags := [], subjectType := .general, aiMetadata := none,
       aiInsights := none } : Note).version = 1 := by
  constructor
  · rfl
  · rfl

/-- C1 witness: a concrete run — edit, debounce flush, tag add, debounce
flush — from a fresh note satisfying the invariant, on which the theorem
yields the strict increase of an edit and the store-written agreement. -/
theorem note_version_lifecycle_witness :
    (1 : Nat) <
      (stepMut ⟨{ id := "a", title := "", content := "", updatedAt := 0,
                  version := 1, tags := [], subjectType := .general,
                  aiMetadata := none, aiInsights := none }, none, [], []⟩
        (MutOp.editContent 1 "hi")).note.version ∧
    ((runMut ⟨{ id := "a", title := "", content := "", updatedAt := 0,
                version := 1, tags := [], subjectType := .general,
                aiMetadata := none, aiInsights := none }, none, [], []⟩
        [MutOp.editContent 1 "hi", MutOp.debounceFlush, MutOp.addTag "t",
         MutOp.debounceFlush]).store.map (fun r => r.version) =
      (runMut ⟨{ id := "a", title := "", content := "", updatedAt := 0,
                 version := 1, tags := [], subjectType := .general,
                 aiMetadata := none, aiInsights := none }, none, [], []⟩
        [MutOp.editContent 1 "hi", MutOp.debounceFlush, MutOp.addTag "t",
         MutOp.debounceFlush]).written.head?) := by
  have h := note_version_lifecycle
    ⟨{ id := "a", title := "", content := "", updatedAt := 0,
       version := 1, tags := [], subjectType := .general,
       aiMetadata := none, aiInsights := none }, none, [], []⟩
    [MutOp.editContent 1 "hi", MutOp.debounceFlush, MutOp.addTag "t",
     MutOp.debounceFlush]
    (by refine ⟨rfl, ?_, trivial⟩; intro w hw; simp at hw)
  exact ⟨h.2.1 1 "hi", h.2.2.2.2.2.1⟩

/-- C5 counterexample: a summary request and a tags request issued 100 ms
apart — well inside 3000 ms — are both accepted, because no component
applies any cooldown to summary or tag requests; the 3000 ms interval is
not shared across operation types. -/
theorem cooldown_not_shared_counterexample :
    (attemptAI ⟨none, 0⟩ AIOp.summary 10000).1 = true ∧
    (attemptAI (attemptAI ⟨none, 0⟩ AIOp.summary 10000).2
      AIOp.tags 10100).1 = true ∧
    10100 - 10000 < COOLDOWN_MS := by decide

/-- C5 amended: cooldown gating is per feature, not shared: the grammar
checker rejects a grammar request issued less than 3000 ms after its own
previous one and accepts it afterwards; the insights panel does the same
for insights requests against its own timer; summary, tags and
continuation requests pass with no cooldown check; and neither gate reads
or writes the state of the other. -/
theorem per_feature_cooldown (g : AIGates) (t l : Nat) :
    (g.grammarLast = some l → t - l < COOLDOWN_MS →
      attemptAI g AIOp.grammar t = (false, g)) ∧
    (g.grammarLast = some l → COOLDOWN_MS ≤ t - l →
      attemptAI g AIOp.grammar t = (true, { g with grammarLast := some t })) ∧
    (g.grammarLast = none →
      attemptAI g AIOp.grammar t = (true, { g with grammarLast := some t })) ∧
    (t - g.insightsLast < COOLDOWN_MS →
      attemptAI g AIOp.insights t = (false, g)) ∧
    (COOLDOWN_MS ≤ t - g.insightsLast →
      attemptAI g AIOp.insights t = (true, { g with insightsLast := t })) ∧
    attemptAI g AIOp.summary t = (true, g) ∧
    attemptAI g AIOp.tags t = (true, g) ∧
    attemptAI g AIOp.continuation t = (true, g) ∧
    (attemptAI g AIOp.grammar t).2.insightsLast = g.insightsLast ∧
    (attemptAI g AIOp.insights t).2.grammarLast = g.grammarLast := by
  refine ⟨?_, ?_, ?_, ?_, ?_, rfl, rfl, rfl, ?_, ?_⟩
  · intro hg h
    simp [attemptAI, hg, h]
  · intro hg h
    simp [attemptAI, hg, Nat.not_lt.mpr h]
  · intro hg
    simp [attemptAI, hg]
  · intro h
    simp [attemptAI, h]
  · intro h
    simp [attemptAI, Nat.not_lt.mpr h]
  · cases hg : g.grammarLast with
    | none => simp [attemptAI, hg]
    | some l2 =>
        simp only [attemptAI, hg]
        split <;> rfl
  · simp only [attemptAI]
    split <;> rfl

/-- C5 witness: with the grammar gate last used at 1000 and the insights
gate last used at 2000, a grammar request at 2500 is rejected with the
gates unchanged, an insights request at 6000 is accepted, and a summary
request at 2500 passes untouched by any gate. -/
theorem per_feature_cooldown_witness :
    attemptAI ⟨some 1000, 2000⟩ AIOp.grammar 2500 =
      (false, ⟨some 1000, 2000⟩) ∧
    attemptAI ⟨some 1000, 2000⟩ AIOp.insights 6000 =
      (true, ⟨some 1000, 6000⟩) ∧
    attemptAI ⟨some 1000, 2000⟩ AIOp.summary 2500 =
      (true, ⟨some 1000, 2000⟩) := by
  refine ⟨?_, ?_, ?_⟩
  · exact (per_feature_cooldown ⟨some 1000, 2000⟩ 2500 1000).1 rfl (by decide)
  · exact (per_feature_cooldown ⟨some 1000, 2000⟩ 6000 1000).2.2.2.2.1
      (by decide)
  · exact (per_feature_cooldown ⟨some 1000, 2000⟩ 2500 1000).2.2.2.2.2.1

/-- C6 counterexample: two rate-limited responses in a row make the
insights flow schedule two retries, not one — the catch branch schedules a
retry on every rate-limited outcome without consulting the retry flag, so
a rate-limited retry is retried again. -/
theorem insights_retry_unbounded_counterexample :
    (runInsightsGenerate
      [GenOutcome.rateLimited, GenOutcome.rateLimited, GenOutcome.ok]
      false).1 = 2 ∧ ((2 : Nat) = 1 → False) := by decide

/-- C6 amended: every rate-limited response to the insights flow schedules
exactly one further retry after the fixed 3000 ms delay — including when
the rate-limited response answers a retry, so consecutive rate limits
produce repeated retries with no bound; a success or other error stops the
flow at once; and every other operation type issues exactly one endpoint
request, never retries, and surfaces a rate-limited response to the caller
as the thrown wait message. -/
theorem insights_retry_behaviour (rs : List GenOutcome) (b : Bool) :
    (runInsightsGenerate (GenOutcome.rateLimited :: rs) b).1 =
      (runInsightsGenerate rs true).1 + 1 ∧
    (runInsightsGenerate rs b).2.1 =
      List.replicate (runInsightsGenerate rs b).1 RETRY_DELAY_MS ∧
    runInsightsGenerate (GenOutcome.ok :: rs) b =
      (0, [], InsightsFinal.applied) ∧
    (∀ m, runInsightsGenerate (GenOutcome.otherError m :: rs) b =
      (0, [], InsightsFinal.surfaced m)) ∧
    (∀ resp, (runSingleShot resp).1 = 1) ∧
    (∀ m, runSingleShot (EndpointResp.rateLimited m) =
      (1, some (jsOrStr m "Rate limited. Please wait a moment."))) := by
  refine ⟨rfl, ?_, rfl, fun m => rfl, ?_, fun m => rfl⟩
  · induction rs generalizing b with
    | nil => rfl
    | cons r rs ih =>
        cases r with
        | ok => rfl
        | rateLimited =>
            simp [runInsightsGenerate, ih true, List.replicate]
        | otherError m => rfl
  · intro resp
    cases resp <;> rfl

/-- C9: import validation requires a string version, a string exportedAt
and a notes array in which every note has string id, title and content and
numeric updatedAt; one failing note makes validation of the whole file
fail; and a file failing validation makes the entire import fail with the
fixed descriptive message, leaving the in-memory notes and the store
completely unchanged. -/
theorem import_validation_fail_closed (j : Json) (notes : List Note)
    (store : Store) (mode : ImportMode) :
    (validateImportData j = false →
      importNotesM j notes mode =
        { success := false,
          message := "Invalid file format. Expected valid JSON with notes array.",
          importedCount := 0, newCount := 0, updatedCount := 0 } ∧
      handleImportM j notes store mode =
        { notes := notes, store := store,
          alert := "Import failed: Invalid file format. Expected valid JSON with notes array." }) ∧
    (∀ fs, j = Json.obj fs → validateImportData j = true →
      hasStringField fs "version" = true ∧
      hasStringField fs "exportedAt" = true ∧
      ∃ notesArr, fs.lookup "notes" = some (Json.arr notesArr) ∧
        ∀ nj ∈ notesArr, isValidNoteShape nj = true) ∧
    (∀ fs notesArr bad, j = Json.obj fs →
      fs.lookup "notes" = some (Json.arr notesArr) → bad ∈ notesArr →
      isValidNoteShape bad = false → validateImportData j = false) := by
  refine ⟨?_, ?_, ?_⟩
  · intro h
    constructor
    · simp [importNotesM, h]
    · simp [handleImportM, importNotesM, h]
  · rintro fs rfl hval
    simp only [validateImportData, Bool.and_eq_true] at hval
    obtain ⟨⟨hv, he⟩, hn⟩ := hval
    refine ⟨hv, he, ?_⟩
    cases hlk : fs.lookup "notes" with
    | none => rw [hlk] at hn; exact absurd hn (by simp)
    | some v =>
        cases v with
        | arr l =>
            rw [hlk] at hn
            exact ⟨l, rfl, List.all_eq_true.mp hn⟩
        | str s => rw [hlk] at hn; exact absurd hn (by simp)
        | num n => rw [hlk] at hn; exact absurd hn (by simp)
        | bool b => rw [hlk] at hn; exact absurd hn (by simp)
        | null => rw [hlk] at hn; exact absurd hn (by simp)
        | obj fs2 => rw [hlk] at hn; exact absurd hn (by simp)
  · rintro fs notesArr bad rfl hlk hmem hbad
    have hall : notesArr.all isValidNoteShape = false := by
      rcases hval : notesArr.all isValidNoteShape with _ | _
      · rfl
      · exact absurd (List.all_eq_true.mp hval bad hmem) (by simp [hbad])
    simp [validateImportData, hlk, hall]

/-- C9 witness: a file whose only note has a numeric id fails validation,
and importing it in replace mode over an empty registry changes nothing
and alerts the fixed failure message. -/
theorem import_validation_fail_closed_witness :
    validateImportData (Json.obj [("version", Json.str "1.0"),
      ("exportedAt", Json.str "2024-01-01"),
      ("notes", Json.arr [Json.obj [("id", Json.num 5)]])]) = false ∧
    handleImportM (Json.obj [("version", Json.str "1.0"),
      ("exportedAt", Json.str "2024-01-01"),
      ("notes", Json.arr [Json.obj [("id", Json.num 5)]])]) [] []
      ImportMode.replace =
      { notes := [], store := [],
        alert := "Import failed: Invalid file format. Expected valid JSON with notes array." } := by
  have h3 := (import_validation_fail_closed (Json.obj [("version",
      Json.str "1.0"), ("exportedAt", Json.str "2024-01-01"),
      ("notes", Json.arr [Json.obj [("id", Json.num 5)]])]) [] []
      ImportMode.replace).2.2
    [("version", Json.str "1.0"), ("exportedAt", Json.str "2024-01-01"),
     ("notes", Json.arr [Json.obj [("id", Json.num 5)]])]
    [Json.obj [("id", Json.num 5)]] (Json.obj [("id", Json.num 5)])
    rfl rfl (List.Mem.head _) rfl
  exact ⟨h3, ((import_validation_fail_closed _ [] [] ImportMode.replace).1
    h3).2⟩

/-! ## Round-trip lemmas for the export format -/

theorem subjectType_roundtrip (s : SubjectType) :
    subjectTypeOfString (subjectTypeToString s) = some s := by
  cases s <;> rfl

theorem asStringList_roundtrip (xs : List String) :
    asStringList (Json.arr (xs.map Json.str)) = some xs := by
  show decodeStrings (xs.map Json.str) = some xs
  induction xs with
  | nil => rfl
  | cons x xs ih => simp [decodeStrings, asString, ih]

theorem decodeDefinition_roundtrip (d : Definition) :
    decodeDefinition (definitionToJson d) = some d := rfl

theorem decodeDefList_roundtrip (ds : List Definition) :
    decodeDefinitions (ds.map definitionToJson) = some ds := by
  induction ds with
  | nil => rfl
  | cons d ds ih => simp [decodeDefinitions, decodeDefinition_roundtrip, ih]

theorem decodeMeta_roundtrip (m : AIMetadata) :
    decodeMeta (metaToJson m) = some m := by
  obtain ⟨ms, ml⟩ := m
  cases ms <;> cases ml <;> rfl

theorem decodeInsights_roundtrip (i : AIInsights) :
    decodeInsights (insightsToJson i) = some i := by
  obtain ⟨s, ds, ac, sq, g, ch⟩ := i
  simp [decodeInsights, insightsToJson, jsonField, List.lookup, asString,
    asNat, asStringList_roundtrip, decodeDefList_roundtrip]

theorem decodeNote_roundtrip (n : Note) :
    decodeNote (noteToJson n) = some n := by
  obtain ⟨id, title, content, updatedAt, version, tags, st, meta, ins⟩ := n
  cases meta <;> cases ins <;>
    simp [decodeNote, noteToJson, jsonField, List.lookup, asString, asNat,
      asStringList_roundtrip, subjectType_roundtrip, decodeMeta_roundtrip,
      decodeInsights_roundtrip]

theorem isValidNoteShape_encode (n : Note) :
    isValidNoteShape (noteToJson n) = true := rfl

theorem validate_export (exportedAt : String) (ns : List Note) :
    validateImportData (exportNotesData exportedAt ns) = true := by
  show (ns.map noteToJson).all isValidNoteShape = true
  apply List.all_eq_true.mpr
  intro j hj
  obtain ⟨n, _, rfl⟩ := List.mem_map.mp hj
  exact isValidNoteShape_encode n

theorem getImported_export (exportedAt : String) (ns : List Note) :
    getImportedNotes (exportNotesData exportedAt ns) = ns := by
  show (ns.map noteToJson).filterMap decodeNote = ns
  induction ns with
  | nil => rfl
  | cons n ns ih => simp [List.filterMap_cons, decodeNote_roundtrip n, ih]

theorem saveNotesM_of_nodup (ns : List Note) (acc : Store)
    (hacc : ∀ n ∈ ns, ∀ r ∈ acc, r.id ≠ n.id)
    (hnd : (ns.map Note.id).Nodup) :
    saveNotesM acc ns = (ns.map mkRecord).reverse ++ acc := by
  induction ns generalizing acc with
  | nil => rfl
  | cons n ns ih =>
      have hfilter : acc.filter (fun x => x.id ≠ (mkRecord n).id) = acc := by
        apply List.filter_eq_self.mpr
        intro r hr
        simpa using hacc n (List.mem_cons_self n ns) r hr
      have hstep : saveNotesM acc (n :: ns) =
          saveNotesM (mkRecord n :: acc) ns := by
        show saveNotesM (storePut acc (mkRecord n)) ns =
          saveNotesM (mkRecord n :: acc) ns
        rw [storePut, hfilter]
      rw [hstep, ih (mkRecord n :: acc) ?_ ?_]
      · simp
      · intro m hm r hr
        rcases List.mem_cons.mp hr with rfl | hr2
        · show n.id ≠ m.id
          intro hEq
          have : n.id ∈ ns.map Note.id := hEq ▸ List.mem_map_of_mem Note.id hm
          simp at hnd
          exact hnd.1 m hm hEq.symm
        · exact hacc m (List.mem_cons_of_mem n hm) r hr2
      · simpa using hnd.of_cons

/-- C8: exporting any note list and importing the export in replace mode
succeeds: the export passes validation, decoding the exported notes array
returns the original notes field by field, and the resulting in-memory note
set is a permutation of the original set, re-sorted by updatedAt
descending; when the original ids are pairwise distinct and no version is
zero, the store afterwards holds exactly the imported notes (each with its
content size attached). -/
theorem export_import_replace_roundtrip (exportedAt : String)
    (notes currentNotes : List Note) (store : Store) :
    validateImportData (exportNotesData exportedAt notes) = true ∧
    getImportedNotes (exportNotesData exportedAt notes) = notes ∧
    (handleImportM (exportNotesData exportedAt notes) currentNotes store
        ImportMode.replace).notes.Perm notes ∧
    List.Pairwise (fun a b => b.updatedAt ≤ a.updatedAt)
      (handleImportM (exportNotesData exportedAt notes) currentNotes store
        ImportMode.replace).notes ∧
    (handleImportM (exportNotesData exportedAt notes) currentNotes store
        ImportMode.replace).alert =
      "Imported " ++ toString notes.length ++ " notes (replaced all)" ∧
    ((notes.map Note.id).Nodup → (∀ n ∈ notes, n.version ≠ 0) →
      ((handleImportM (exportNotesData exportedAt notes) currentNotes store
          ImportMode.replace).store.map (fun r => r.toNote)).Perm notes) := by
  have hval := validate_export exportedAt notes
  have himp := getImported_export exportedAt notes
  have hres : importNotesM (exportNotesData exportedAt notes) currentNotes
      ImportMode.replace =
      { success := true,
        message := "Imported " ++ toString notes.length ++
          " notes (replaced all)",
        importedCount := notes.length, newCount := notes.length,
        updatedCount := 0 } := by
    simp [importNotesM, hval, himp]
  have hH : handleImportM (exportNotesData exportedAt notes) currentNotes
      store ImportMode.replace =
      { notes := sortByUpdatedAtDesc notes,
        store := saveNotesM clearAllNotesM (sortByUpdatedAtDesc notes),
        alert := "Imported " ++ toString notes.length ++
          " notes (replaced all)" } := by
    simp [handleImportM, hres, himp]
  have hperm : (sortByUpdatedAtDesc notes).Perm notes :=
    List.mergeSort_perm notes _
  refine ⟨hval, himp, ?_, ?_, ?_, ?_⟩
  · rw [hH]
    exact hperm
  · rw [hH]
    have htrans : ∀ a b c : Note,
        decide (b.updatedAt ≤ a.updatedAt) = true →
        decide (c.updatedAt ≤ b.updatedAt) = true →
        decide (c.updatedAt ≤ a.updatedAt) = true := by
      intro a b c hab hbc
      simp only [decide_eq_true_eq] at *
      omega
    have htotal : ∀ a b : Note,
        (decide (b.updatedAt ≤ a.updatedAt) ||
          decide (a.updatedAt ≤ b.updatedAt)) = true := by
      intro a b
      rcases Nat.le_total b.updatedAt a.updatedAt with h | h <;> simp [h]
    have hs := List.sorted_mergeSort htrans htotal notes
    exact hs.imp (fun h => of_decide_eq_true h)
  · rw [hH]
  · intro hnd hver
    rw [hH]
    have hndSorted : ((sortByUpdatedAtDesc notes).map Note.id).Nodup :=
      ((hperm.map Note.id).nodup_iff).mpr hnd
    rw [saveNotesM_of_nodup _ _ (fun n _ r hr => absurd hr (by
      simp [clearAllNotesM])) hndSorted]
    have hmap : ((sortByUpdatedAtDesc notes).map mkRecord).map
        (fun r => r.toNote) = sortByUpdatedAtDesc notes := by
      rw [List.map_map]
      conv_rhs => rw [← List.map_id (sortByUpdatedAtDesc notes)]
      apply List.map_congr_left
      intro n hn
      have hv : n.version ≠ 0 := hver n (hperm.mem_iff.mp hn)
      show { n with version := jsOrNat n.version 1 } = n
      have hjs : jsOrNat n.version 1 = n.version := by
        unfold jsOrNat
        split <;> omega
      rw [hjs]
    have hrev : ((((sortByUpdatedAtDesc notes).map mkRecord).reverse ++
          clearAllNotesM).map fun r => r.toNote) =
        (((sortByUpdatedAtDesc notes).map mkRecord).map
          fun r => r.toNote).reverse := by
      simp [clearAllNotesM]
    rw [hrev, hmap]
    exact (List.reverse_perm _).trans hperm

/-- C8 witness: a concrete two-note list round-trips through export and
replace-mode import — validation passes, the imported in-memory set is a
permutation of the original, and so is the stored set. -/
theorem export_import_replace_roundtrip_witness :
    validateImportData (exportNotesData "2024-01-01"
      [{ id := "id1", title := "t1", content := "c1", updatedAt := 5,
         version := 1, tags := [], subjectType := .general,
         aiMetadata := none, aiInsights := none },
       { id := "id2", title := "t2", content := "c2", updatedAt := 9,
         version := 3, tags := ["x"], subjectType := .math,
         aiMetadata := none, aiInsights := none }]) = true ∧
    (handleImportM (exportNotesData "2024-01-01"
      [{ id := "id1", title := "t1", content := "c1", updatedAt := 5,
         version := 1, tags := [], subjectType := .general,
         aiMetadata := none, aiInsights := none },
       { id := "id2", title := "t2", content := "c2", updatedAt := 9,
         version := 3, tags := ["x"], subjectType := .math,
         aiMetadata := none, aiInsights := none }]) [] []
      ImportMode.replace).notes.Perm
      [{ id := "id1", title := "t1", content := "c1", updatedAt := 5,
         version := 1, tags := [], subjectType := .general,
         aiMetadata := none, aiInsights := none },
       { id := "id2", title := "t2", content := "c2", updatedAt := 9,
         version := 3, tags := ["x"], subjectType := .math,
         aiMetadata := none, aiInsights := none }] ∧
    ((handleImportM (exportNotesData "2024-01-01"
      [{ id := "id1", title := "t1", content := "c1", updatedAt := 5,
         version := 1, tags := [], subjectType := .general,
         aiMetadata := none, aiInsights := none },
       { id := "id2", title := "t2", content := "c2", updatedAt := 9,
         version := 3, tags := ["x"], subjectType := .math,
         aiMetadata := none, aiInsights := none }]) [] []
      ImportMode.replace).store.map (fun r => r.toNote)).Perm
      [{ id := "id1", title := "t1", content := "c1", updatedAt := 5,
         version := 1, tags := [], subjectType := .general,
         aiMetadata := none, aiInsights := none },
       { id := "id2", title := "t2", content := "c2", updatedAt := 9,
         version := 3, tags := ["x"], subjectType := .math,
         aiMetadata := none, aiInsights := none }] := by
  have h := export_import_replace_roundtrip "2024-01-01"
    [{ id := "id1", title := "t1", content := "c1", updatedAt := 5,
       version := 1, tags := [], subjectType := .general,
       aiMetadata := none, aiInsights := none },
     { id := "id2", title := "t2", content := "c2", updatedAt := 9,
       version := 3, tags := ["x"], subjectType := .math,
       aiMetadata := none, aiInsights := none }] [] []
  exact ⟨h.1, h.2.2.1, h.2.2.2.2.2 (by decide) (by decide)⟩

/-- C10 witness: on a concrete response the parsed tag list is short enough
and a concrete returned tag is a trimmed non-empty piece under 30
characters. -/
theorem suggest_tags_shape_witness :
    (parseTags "alpha, beta").length ≤ 5 ∧
    (0 < "alpha".length ∧ "alpha".length < 30 ∧
      ∃ p ∈ jsSplit ',' "alpha, beta", "alpha" = jsTrim p) := by
  exact ⟨(suggest_tags_shape "alpha, beta").1,
    (suggest_tags_shape "alpha, beta").2 "alpha" (by decide)⟩

end NoteTaker
